import Mathlib

-- Verification of the promise-pool runner.
-- The embedding models the worker loop of promisePool as a small-step
-- transition system.  A worker is a state machine whose states are the
-- suspension points of the source code (the await expressions); the code
-- between two suspension points runs atomically, exactly as in the
-- single-threaded event-loop semantics of the source language.  The
-- scheduler picks any non-terminated worker and runs its next atomic block.

set_option maxHeartbeats 1000000

namespace PromisePool

/-- Possible return values of the failure handler, as distinguished by the
source: the exact sentinel symbol, the undefined value, the null value, or
any other value.  The source tests the returned action with identity
equality against the sentinel. -/
inductive HandlerRet
  | stopSignal
  | undef
  | nullv
  | other
  deriving DecidableEq

/-- The distinguished sentinel symbol exported by the module. -/
def POOL_STOP_SIGNAL : HandlerRet := HandlerRet.stopSignal

/-- The semantic content of one call: the input sequence, the per-item
operation (which may fail), and the optional failure handler. -/
structure PoolConfig (T R E : Type) where
  input : List T
  op : T → Except E R
  handler : Option (E → T → HandlerRet)

/-- A worker state: the suspension points of the worker loop.
toStart is a worker that has not yet run its first block;
afterNext is suspended at the await of iterable.next (the pulled value,
none meaning the source reported done); afterOp is suspended at the await
of iteratorFn item; afterHandler is suspended at the await of
errorHandler err item; done is a terminated worker. -/
inductive WState (T E : Type)
  | toStart
  | afterNext (v : Option T)
  | afterOp (item : T)
  | afterHandler (item : T) (err : E)
  | done
  deriving DecidableEq

/-- The shared state of one invocation: the cursor of the shared iterator,
the three accumulators, the abort flag, and the worker states.  The fields
log (which worker pulled which input index, in pull order), invoked (items
on which the operation was started), handlersStarted and handlersCompleted
are ghost observations used to state claims; they do not influence the
transitions. -/
structure PoolState (T R E : Type) where
  cursor : Nat
  results : List R
  errors : List E
  failedItems : List T
  isAborted : Bool
  workers : List (WState T E)
  log : List (Nat × Nat)
  invoked : List T
  handlersStarted : Nat
  handlersCompleted : Nat
  deriving DecidableEq

variable {T R E : Type}

/-- The atomic block at the head of the worker loop: check the abort flag;
if clear, pull the next value from the shared iterator (advancing the
cursor) and suspend at afterNext; a worker that observes the abort flag
terminates without pulling. -/
def pull (cfg : PoolConfig T R E) (s : PoolState T R E) (i : Nat) :
    PoolState T R E × WState T E :=
  if s.isAborted then (s, WState.done)
  else
    match cfg.input[s.cursor]? with
    | some item =>
        ({ s with cursor := s.cursor + 1, log := s.log ++ [(i, s.cursor)] },
         WState.afterNext (some item))
    | none => (s, WState.afterNext none)

/-- One atomic block of worker i, starting from worker state w. -/
def stepW (cfg : PoolConfig T R E) (s : PoolState T R E) (i : Nat) :
    WState T E → PoolState T R E × WState T E
  | WState.toStart => pull cfg s i
  | WState.afterNext none => (s, WState.done)
  | WState.afterNext (some item) =>
      if s.isAborted then (s, WState.done)
      else ({ s with invoked := s.invoked ++ [item] }, WState.afterOp item)
  | WState.afterOp item =>
      match cfg.op item with
      | Except.ok r =>
          let s1 := if s.isAborted then s else { s with results := s.results ++ [r] }
          pull cfg s1 i
      | Except.error e =>
          let s1 := { s with errors := s.errors ++ [e],
                             failedItems := s.failedItems ++ [item] }
          match cfg.handler with
          | some _ =>
              ({ s1 with handlersStarted := s1.handlersStarted + 1 },
               WState.afterHandler item e)
          | none => pull cfg s1 i
  | WState.afterHandler item e =>
      let s0 := { s with handlersCompleted := s.handlersCompleted + 1 }
      match cfg.handler with
      | some h =>
          let s1 := if h e item = POOL_STOP_SIGNAL then { s0 with isAborted := true } else s0
          pull cfg s1 i
      | none => pull cfg s0 i
  | WState.done => (s, WState.done)

/-- Run the atomic block of worker i and store its new worker state. -/
def stepPool (cfg : PoolConfig T R E) (s : PoolState T R E) (i : Nat) :
    PoolState T R E :=
  match s.workers[i]? with
  | some w =>
      let p := stepW cfg s i w
      { p.1 with workers := p.1.workers.set i p.2 }
  | none => s

/-- The state at the start of a call with n workers: fresh accumulators,
cursor at zero, abort flag clear, all workers about to run. -/
def initState (n : Nat) : PoolState T R E :=
  ⟨0, [], [], [], false, List.replicate n WState.toStart, [], [], 0, 0⟩

/-- Whether a worker has terminated. -/
def isDone : WState T E → Bool
  | WState.done => true
  | _ => false

/-- Index of the first worker that has not terminated, if any. -/
def firstActive : List (WState T E) → Option Nat
  | [] => none
  | w :: ws => if isDone w then (firstActive ws).map (fun k => k + 1) else some 0

/-- A state is terminal when every worker has terminated; this is the join
barrier of the source (Promise.all over the workers). -/
def Terminal (s : PoolState T R E) : Prop := firstActive s.workers = none

instance (s : PoolState T R E) : Decidable (Terminal s) := by
  unfold Terminal; infer_instance

/-- Deterministic fueled execution: repeatedly run the first active worker. -/
def runFuel (cfg : PoolConfig T R E) : Nat → PoolState T R E → PoolState T R E
  | 0, s => s
  | fuel + 1, s =>
      match firstActive s.workers with
      | none => s
      | some i => runFuel cfg fuel (stepPool cfg s i)

/-- The object returned by the call. -/
structure Outcome (T R E : Type) where
  results : List R
  errors : List E
  failedItems : List T
  stoppedPrematurely : Bool
  deriving DecidableEq

/-- Build the returned object from a pool state. -/
def outcome (s : PoolState T R E) : Outcome T R E :=
  ⟨s.results, s.errors, s.failedItems, s.isAborted⟩

/-- Fuel sufficient to drive any run with n workers to completion. -/
def fuelBound (cfg : PoolConfig T R E) (n : Nat) : Nat :=
  6 * cfg.input.length + 2 * n + 1

/-- The completed state of the deterministic execution with n workers. -/
def finalState (cfg : PoolConfig T R E) (n : Nat) : PoolState T R E :=
  runFuel cfg (fuelBound cfg n) (initState n)

/-- Model of the numeric values of the host language, as far as the
validation logic distinguishes them. -/
inductive JSNumber
  | nan
  | posInf
  | negInf
  | fin (q : ℚ)
  deriving DecidableEq

/-- The comparison concurrency gt 0 of the source, on host numbers: the
comparison is false for nan, true for positive infinity and positive
finite values. -/
def jsGtZero : JSNumber → Bool
  | JSNumber.nan => false
  | JSNumber.posInf => true
  | JSNumber.negInf => false
  | JSNumber.fin q => decide (0 < q)

/-- The ToLength conversion of the host applied to the length value read
by Array.from: truncate to an integer and clamp to the range from 0 to
2 to the 53 minus 1 (nan and negative values give 0, positive infinity
gives the upper bound). -/
def toLength : JSNumber → Nat
  | JSNumber.nan => 0
  | JSNumber.posInf => 2 ^ 53 - 1
  | JSNumber.negInf => 0
  | JSNumber.fin q => min (Int.floor q).toNat (2 ^ 53 - 1)

/-- Number of workers created by Array.from with the given length value:
the length is converted with ToLength and an array of that length is
created; array creation throws a RangeError for any length above
2 to the 32 minus 1, modelled as none.  In particular a validated
concurrency of positive infinity does not run a pool: the call throws. -/
def numWorkers (c : JSNumber) : Option Nat :=
  if toLength c ≤ 2 ^ 32 - 1 then some (toLength c) else none

/-- The host-level shapes of the four arguments, as far as the validation
logic inspects them: truthiness of the input, whether the operation and
the handler are callable, whether the concurrency is of number type and
its numeric value, and truthiness of the handler argument. -/
structure RawArgs where
  inputPresent : Bool
  iteratorFnIsFunction : Bool
  concurrencyIsNumber : Bool
  concurrency : JSNumber
  errorHandlerPresent : Bool
  errorHandlerIsFunction : Bool
  deriving DecidableEq

/-- The validation of the source: the four assertions in order, producing
the message of the first failing assertion. -/
def _validateInput (a : RawArgs) : Option String :=
  if !a.inputPresent then some ("input is required")
  else if !a.iteratorFnIsFunction then some ("iteratorFn must be a function")
  else if !(a.concurrencyIsNumber && jsGtZero a.concurrency) then
    some ("concurrency must be a positive number")
  else if a.errorHandlerPresent && !a.errorHandlerIsFunction then
    some ("errorHandler must be a function")
  else none

/-- The exported entry point: validate, and if validation fails the call
fails with the validation message before consuming any item; otherwise
create the workers with Array.from, whose array creation throws a
RangeError (Invalid array length) when the converted length exceeds
2 to the 32 minus 1; otherwise run the pool to completion and return the
outcome. -/
def promisePool (a : RawArgs) (cfg : PoolConfig T R E) :
    Except String (Outcome T R E) :=
  match _validateInput a with
  | some msg => Except.error msg
  | none =>
      match numWorkers a.concurrency with
      | some n => Except.ok (outcome (finalState cfg n))
      | none => Except.error ("Invalid array length")

/-- One scheduler step: some non-terminated worker runs its next atomic
block. -/
def Step (cfg : PoolConfig T R E) (s s' : PoolState T R E) : Prop :=
  ∃ i w, s.workers[i]? = some w ∧ w ≠ WState.done ∧ s' = stepPool cfg s i

/-- Reachability under any interleaving of the workers. -/
def Reaches (cfg : PoolConfig T R E) (s s' : PoolState T R E) : Prop :=
  Relation.ReflTransGen (Step cfg) s s'

/-- Rank of a worker state, decreasing along pull-free transitions. -/
def wRank : WState T E → Nat
  | WState.done => 0
  | WState.afterNext none => 1
  | WState.toStart => 2
  | WState.afterHandler _ _ => 3
  | WState.afterOp _ => 4
  | WState.afterNext (some _) => 5

/-- Load of a worker state: 1 when the worker holds a pulled item whose
outcome has not yet been recorded. -/
def wLoad : WState T E → Nat
  | WState.afterNext (some _) => 1
  | WState.afterOp _ => 1
  | _ => 0

/-- 1 when the worker is waiting on a handler invocation. -/
def wHand : WState T E → Nat
  | WState.afterHandler _ _ => 1
  | _ => 0

/-- Number of pulled items whose outcome has not yet been recorded. -/
def inFlight (ws : List (WState T E)) : Nat := (ws.map wLoad).sum

/-- Number of handler invocations in flight. -/
def countH (ws : List (WState T E)) : Nat := (ws.map wHand).sum

/-- Sum of the worker ranks. -/
def rankSum (ws : List (WState T E)) : Nat := (ws.map wRank).sum

/-- Termination potential of a state. -/
def potential (cfg : PoolConfig T R E) (s : PoolState T R E) : Nat :=
  6 * (cfg.input.length - s.cursor) + rankSum s.workers

/-- The failure handler never returns the stop sentinel (or is absent). -/
def NoStop (cfg : PoolConfig T R E) : Prop :=
  ∀ h, cfg.handler = some h → ∀ e t, h e t ≠ POOL_STOP_SIGNAL

theorem getElem?_some_lt {α : Type} {l : List α} {i : Nat} {a : α}
    (h : l[i]? = some a) : i < l.length := by
  by_contra hb
  rw [List.getElem?_eq_none (Nat.le_of_not_lt hb)] at h
  exact Option.noConfusion h

theorem getElem?_some_mem {α : Type} {l : List α} {i : Nat} {a : α}
    (h : l[i]? = some a) : a ∈ l := by
  have hlt := getElem?_some_lt h
  have := List.getElem?_eq_getElem hlt
  rw [this] at h
  have : l[i] = a := by exact Option.some.inj h
  exact this ▸ List.getElem_mem hlt

theorem map_sum_set {α : Type} (f : α → Nat) :
    ∀ (l : List α) (i : Nat) (w w' : α), l[i]? = some w →
      ((l.set i w').map f).sum + f w = (l.map f).sum + f w' := by
  intro l
  induction l with
  | nil => intro i w w' h; simp at h
  | cons a t ih =>
      intro i w w' h
      cases i with
      | zero =>
          simp only [List.getElem?_cons_zero, Option.some.injEq] at h
          subst h
          have hset : (a :: t).set 0 w' = w' :: t := rfl
          rw [hset]
          simp only [List.map_cons, List.sum_cons]
          omega
      | succ j =>
          simp only [List.getElem?_cons_succ] at h
          have ih2 := ih j w w' h
          have hset : (a :: t).set (j + 1) w' = a :: t.set j w' := rfl
          rw [hset]
          simp only [List.map_cons, List.sum_cons]
          omega

theorem pull_workers (cfg : PoolConfig T R E) (s : PoolState T R E) (i : Nat) :
    (pull cfg s i).1.workers = s.workers := by
  unfold pull
  split
  · rfl
  · split <;> rfl

theorem stepW_workers (cfg : PoolConfig T R E) (s : PoolState T R E) (i : Nat)
    (w : WState T E) : (stepW cfg s i w).1.workers = s.workers := by
  cases w with
  | toStart => exact pull_workers cfg s i
  | afterNext v =>
      cases v with
      | none => rfl
      | some item => simp only [stepW]; split <;> rfl
  | afterOp item =>
      simp only [stepW]
      cases cfg.op item with
      | ok r =>
          simp only []
          rw [pull_workers]
          split <;> rfl
      | error e =>
          cases cfg.handler with
          | some h => rfl
          | none => simp only []; rw [pull_workers]
  | afterHandler item e =>
      simp only [stepW]
      cases cfg.handler with
      | some h =>
          simp only []
          rw [pull_workers]
          split <;> rfl
      | none => simp only []; rw [pull_workers]
  | done => rfl

theorem stepPool_workers (cfg : PoolConfig T R E) (s : PoolState T R E) (i : Nat) :
    (stepPool cfg s i).workers = s.workers.set i (stepW cfg s i ((s.workers[i]?).getD WState.done)).2 ∨
    (stepPool cfg s i).workers = s.workers := by
  unfold stepPool
  cases h : s.workers[i]? with
  | none => right; rfl
  | some w =>
      left
      simp [h, stepW_workers]

theorem stepPool_workers_length (cfg : PoolConfig T R E) (s : PoolState T R E)
    (i : Nat) : (stepPool cfg s i).workers.length = s.workers.length := by
  rcases stepPool_workers cfg s i with h | h
  · rw [h]; simp
  · rw [h]

theorem reaches_workers_length {cfg : PoolConfig T R E} {s s' : PoolState T R E}
    (h : Reaches cfg s s') : s'.workers.length = s.workers.length := by
  induction h with
  | refl => rfl
  | tail hab hbc ih =>
      obtain ⟨i, w, hi, hne, rfl⟩ := hbc
      rw [stepPool_workers_length]
      exact ih

theorem stepPool_eq (cfg : PoolConfig T R E) (s : PoolState T R E) (i : Nat)
    (w : WState T E) (hw : s.workers[i]? = some w) :
    stepPool cfg s i =
      { (stepW cfg s i w).1 with
        workers := s.workers.set i (stepW cfg s i w).2 } := by
  unfold stepPool
  rw [hw]
  simp [stepW_workers]

theorem spec_done (cfg : PoolConfig T R E) (s : PoolState T R E) (i : Nat)
    (hw : s.workers[i]? = some WState.done) :
    stepPool cfg s i = { s with workers := s.workers.set i WState.done } := by
  rw [stepPool_eq cfg s i _ hw]
  simp [stepW]

theorem spec_toStart_aborted (cfg : PoolConfig T R E) (s : PoolState T R E)
    (i : Nat) (hw : s.workers[i]? = some WState.toStart)
    (hab : s.isAborted = true) :
    stepPool cfg s i = { s with workers := s.workers.set i WState.done } := by
  rw [stepPool_eq cfg s i _ hw]
  simp [stepW, pull, hab]

theorem spec_toStart_pull (cfg : PoolConfig T R E) (s : PoolState T R E)
    (i : Nat) (item : T) (hw : s.workers[i]? = some WState.toStart)
    (hab : s.isAborted = false) (hc : cfg.input[s.cursor]? = some item) :
    stepPool cfg s i =
      { s with cursor := s.cursor + 1, log := s.log ++ [(i, s.cursor)],
               workers := s.workers.set i (WState.afterNext (some item)) } := by
  rw [stepPool_eq cfg s i _ hw]
  simp [stepW, pull, hab, hc]

theorem spec_toStart_exhausted (cfg : PoolConfig T R E) (s : PoolState T R E)
    (i : Nat) (hw : s.workers[i]? = some WState.toStart)
    (hab : s.isAborted = false) (hc : cfg.input[s.cursor]? = none) :
    stepPool cfg s i =
      { s with workers := s.workers.set i (WState.afterNext none) } := by
  rw [stepPool_eq cfg s i _ hw]
  simp [stepW, pull, hab, hc]

theorem spec_afterNext_none (cfg : PoolConfig T R E) (s : PoolState T R E)
    (i : Nat) (hw : s.workers[i]? = some (WState.afterNext none)) :
    stepPool cfg s i = { s with workers := s.workers.set i WState.done } := by
  rw [stepPool_eq cfg s i _ hw]
  simp [stepW]

theorem spec_afterNext_aborted (cfg : PoolConfig T R E) (s : PoolState T R E)
    (i : Nat) (item : T)
    (hw : s.workers[i]? = some (WState.afterNext (some item)))
    (hab : s.isAborted = true) :
    stepPool cfg s i = { s with workers := s.workers.set i WState.done } := by
  rw [stepPool_eq cfg s i _ hw]
  simp [stepW, hab]

theorem spec_afterNext_some (cfg : PoolConfig T R E) (s : PoolState T R E)
    (i : Nat) (item : T)
    (hw : s.workers[i]? = some (WState.afterNext (some item)))
    (hab : s.isAborted = false) :
    stepPool cfg s i =
      { s with invoked := s.invoked ++ [item],
               workers := s.workers.set i (WState.afterOp item) } := by
  rw [stepPool_eq cfg s i _ hw]
  simp [stepW, hab]

theorem spec_afterOp_ok_aborted (cfg : PoolConfig T R E) (s : PoolState T R E)
    (i : Nat) (item : T) (r : R)
    (hw : s.workers[i]? = some (WState.afterOp item))
    (hop : cfg.op item = Except.ok r) (hab : s.isAborted = true) :
    stepPool cfg s i = { s with workers := s.workers.set i WState.done } := by
  rw [stepPool_eq cfg s i _ hw]
  simp [stepW, pull, hop, hab]

theorem spec_afterOp_ok_pull (cfg : PoolConfig T R E) (s : PoolState T R E)
    (i : Nat) (item item2 : T) (r : R)
    (hw : s.workers[i]? = some (WState.afterOp item))
    (hop : cfg.op item = Except.ok r) (hab : s.isAborted = false)
    (hc : cfg.input[s.cursor]? = some item2) :
    stepPool cfg s i =
      { s with results := s.results ++ [r], cursor := s.cursor + 1,
               log := s.log ++ [(i, s.cursor)],
               workers := s.workers.set i (WState.afterNext (some item2)) } := by
  rw [stepPool_eq cfg s i _ hw]
  simp [stepW, pull, hop, hab, hc]

theorem spec_afterOp_ok_exhausted (cfg : PoolConfig T R E) (s : PoolState T R E)
    (i : Nat) (item : T) (r : R)
    (hw : s.workers[i]? = some (WState.afterOp item))
    (hop : cfg.op item = Except.ok r) (hab : s.isAborted = false)
    (hc : cfg.input[s.cursor]? = none) :
    stepPool cfg s i =
      { s with results := s.results ++ [r],
               workers := s.workers.set i (WState.afterNext none) } := by
  rw [stepPool_eq cfg s i _ hw]
  simp [stepW, pull, hop, hab, hc]

theorem spec_afterOp_error_handler (cfg : PoolConfig T R E) (s : PoolState T R E)
    (i : Nat) (item : T) (e : E) (h : E → T → HandlerRet)
    (hw : s.workers[i]? = some (WState.afterOp item))
    (hop : cfg.op item = Except.error e) (hh : cfg.handler = some h) :
    stepPool cfg s i =
      { s with errors := s.errors ++ [e],
               failedItems := s.failedItems ++ [item],
               handlersStarted := s.handlersStarted + 1,
               workers := s.workers.set i (WState.afterHandler item e) } := by
  rw [stepPool_eq cfg s i _ hw]
  simp [stepW, hop, hh]

theorem spec_afterOp_error_aborted (cfg : PoolConfig T R E) (s : PoolState T R E)
    (i : Nat) (item : T) (e : E)
    (hw : s.workers[i]? = some (WState.afterOp item))
    (hop : cfg.op item = Except.error e) (hh : cfg.handler = none)
    (hab : s.isAborted = true) :
    stepPool cfg s i =
      { s with errors := s.errors ++ [e],
               failedItems := s.failedItems ++ [item],
               workers := s.workers.set i WState.done } := by
  rw [stepPool_eq cfg s i _ hw]
  simp [stepW, pull, hop, hh, hab]

theorem spec_afterOp_error_pull (cfg : PoolConfig T R E) (s : PoolState T R E)
    (i : Nat) (item item2 : T) (e : E)
    (hw : s.workers[i]? = some (WState.afterOp item))
    (hop : cfg.op item = Except.error e) (hh : cfg.handler = none)
    (hab : s.isAborted = false) (hc : cfg.input[s.cursor]? = some item2) :
    stepPool cfg s i =
      { s with errors := s.errors ++ [e],
               failedItems := s.failedItems ++ [item],
               cursor := s.cursor + 1, log := s.log ++ [(i, s.cursor)],
               workers := s.workers.set i (WState.afterNext (some item2)) } := by
  rw [stepPool_eq cfg s i _ hw]
  simp [stepW, pull, hop, hh, hab, hc]

theorem spec_afterOp_error_exhausted (cfg : PoolConfig T R E)
    (s : PoolState T R E) (i : Nat) (item : T) (e : E)
    (hw : s.workers[i]? = some (WState.afterOp item))
    (hop : cfg.op item = Except.error e) (hh : cfg.handler = none)
    (hab : s.isAborted = false) (hc : cfg.input[s.cursor]? = none) :
    stepPool cfg s i =
      { s with errors := s.errors ++ [e],
               failedItems := s.failedItems ++ [item],
               workers := s.workers.set i (WState.afterNext none) } := by
  rw [stepPool_eq cfg s i _ hw]
  simp [stepW, pull, hop, hh, hab, hc]

theorem spec_afterHandler_stop (cfg : PoolConfig T R E) (s : PoolState T R E)
    (i : Nat) (item : T) (e : E) (h : E → T → HandlerRet)
    (hw : s.workers[i]? = some (WState.afterHandler item e))
    (hh : cfg.handler = some h) (hstop : h e item = POOL_STOP_SIGNAL) :
    stepPool cfg s i =
      { s with handlersCompleted := s.handlersCompleted + 1,
               isAborted := true,
               workers := s.workers.set i WState.done } := by
  rw [stepPool_eq cfg s i _ hw]
  simp [stepW, pull, hh, hstop]

theorem spec_afterHandler_go_aborted (cfg : PoolConfig T R E)
    (s : PoolState T R E) (i : Nat) (item : T) (e : E) (h : E → T → HandlerRet)
    (hw : s.workers[i]? = some (WState.afterHandler item e))
    (hh : cfg.handler = some h) (hstop : h e item ≠ POOL_STOP_SIGNAL)
    (hab : s.isAborted = true) :
    stepPool cfg s i =
      { s with handlersCompleted := s.handlersCompleted + 1,
               workers := s.workers.set i WState.done } := by
  rw [stepPool_eq cfg s i _ hw]
  simp [stepW, pull, hh, hstop, hab]

theorem spec_afterHandler_go_pull (cfg : PoolConfig T R E)
    (s : PoolState T R E) (i : Nat) (item item2 : T) (e : E)
    (h : E → T → HandlerRet)
    (hw : s.workers[i]? = some (WState.afterHandler item e))
    (hh : cfg.handler = some h) (hstop : h e item ≠ POOL_STOP_SIGNAL)
    (hab : s.isAborted = false) (hc : cfg.input[s.cursor]? = some item2) :
    stepPool cfg s i =
      { s with handlersCompleted := s.handlersCompleted + 1,
               cursor := s.cursor + 1, log := s.log ++ [(i, s.cursor)],
               workers := s.workers.set i (WState.afterNext (some item2)) } := by
  rw [stepPool_eq cfg s i _ hw]
  simp [stepW, pull, hh, hstop, hab, hc]

theorem spec_afterHandler_go_exhausted (cfg : PoolConfig T R E)
    (s : PoolState T R E) (i : Nat) (item : T) (e : E) (h : E → T → HandlerRet)
    (hw : s.workers[i]? = some (WState.afterHandler item e))
    (hh : cfg.handler = some h) (hstop : h e item ≠ POOL_STOP_SIGNAL)
    (hab : s.isAborted = false) (hc : cfg.input[s.cursor]? = none) :
    stepPool cfg s i =
      { s with handlersCompleted := s.handlersCompleted + 1,
               workers := s.workers.set i (WState.afterNext none) } := by
  rw [stepPool_eq cfg s i _ hw]
  simp [stepW, pull, hh, hstop, hab, hc]

theorem spec_afterHandler_none_aborted (cfg : PoolConfig T R E)
    (s : PoolState T R E) (i : Nat) (item : T) (e : E)
    (hw : s.workers[i]? = some (WState.afterHandler item e))
    (hh : cfg.handler = none) (hab : s.isAborted = true) :
    stepPool cfg s i =
      { s with handlersCompleted := s.handlersCompleted + 1,
               workers := s.workers.set i WState.done } := by
  rw [stepPool_eq cfg s i _ hw]
  simp [stepW, pull, hh, hab]

theorem spec_afterHandler_none_pull (cfg : PoolConfig T R E)
    (s : PoolState T R E) (i : Nat) (item item2 : T) (e : E)
    (hw : s.workers[i]? = some (WState.afterHandler item e))
    (hh : cfg.handler = none) (hab : s.isAborted = false)
    (hc : cfg.input[s.cursor]? = some item2) :
    stepPool cfg s i =
      { s with handlersCompleted := s.handlersCompleted + 1,
               cursor := s.cursor + 1, log := s.log ++ [(i, s.cursor)],
               workers := s.workers.set i (WState.afterNext (some item2)) } := by
  rw [stepPool_eq cfg s i _ hw]
  simp [stepW, pull, hh, hab, hc]

theorem spec_afterHandler_none_exhausted (cfg : PoolConfig T R E)
    (s : PoolState T R E) (i : Nat) (item : T) (e : E)
    (hw : s.workers[i]? = some (WState.afterHandler item e))
    (hh : cfg.handler = none) (hab : s.isAborted = false)
    (hc : cfg.input[s.cursor]? = none) :
    stepPool cfg s i =
      { s with handlersCompleted := s.handlersCompleted + 1,
               workers := s.workers.set i (WState.afterNext none) } := by
  rw [stepPool_eq cfg s i _ hw]
  simp [stepW, pull, hh, hab, hc]

/-- Invariants that hold in every reachable state of every run. -/
structure Inv (cfg : PoolConfig T R E) (n : Nat) (s : PoolState T R E) : Prop where
  lenw : s.workers.length = n
  cLe : s.cursor ≤ cfg.input.length
  pair : List.Forall₂ (fun e t => cfg.op t = Except.error e) s.errors s.failedItems
  cnt : s.results.length + s.errors.length + inFlight s.workers ≤ s.cursor
  logr : s.log.map Prod.snd = List.range s.cursor
  hand : s.handlersStarted = s.handlersCompleted + countH s.workers

theorem inv_init (cfg : PoolConfig T R E) (n : Nat) :
    Inv cfg n (initState n) := by
  refine ⟨?_, ?_, ?_, ?_, ?_, ?_⟩ <;>
    simp [initState, inFlight, countH, wLoad, wHand, List.map_replicate]

theorem inv_step (cfg : PoolConfig T R E) (n : Nat) (s : PoolState T R E)
    (i : Nat) (w : WState T E) (hw : s.workers[i]? = some w)
    (hInv : Inv cfg n s) : Inv cfg n (stepPool cfg s i) := by
  obtain ⟨lenw, cLe, pair, cnt, logr, hand⟩ := hInv
  cases w with
  | done =>
      rw [spec_done cfg s i hw]
      have hsumL := map_sum_set wLoad s.workers i _ WState.done hw
      have hsumH := map_sum_set wHand s.workers i _ WState.done hw
      simp only [wLoad, wHand] at hsumL hsumH
      refine ⟨by simpa using lenw, cLe, pair, ?_, logr, ?_⟩
      · simp only [inFlight, List.length_append, List.length_cons, List.length_nil] at cnt ⊢; omega
      · simp only [countH] at hand ⊢; omega
  | toStart =>
      cases hab : s.isAborted with
      | true =>
          rw [spec_toStart_aborted cfg s i hw hab]
          have hsumL := map_sum_set wLoad s.workers i _ WState.done hw
          have hsumH := map_sum_set wHand s.workers i _ WState.done hw
          simp only [wLoad, wHand] at hsumL hsumH
          refine ⟨by simpa using lenw, cLe, pair, ?_, logr, ?_⟩
          · simp only [inFlight, List.length_append, List.length_cons, List.length_nil] at cnt ⊢; omega
          · simp only [countH] at hand ⊢; omega
      | false =>
          cases hc : cfg.input[s.cursor]? with
          | some item =>
              rw [spec_toStart_pull cfg s i item hw hab hc]
              have hlt := getElem?_some_lt hc
              have hsumL := map_sum_set wLoad s.workers i _
                (WState.afterNext (some item)) hw
              have hsumH := map_sum_set wHand s.workers i _
                (WState.afterNext (some item)) hw
              simp only [wLoad, wHand] at hsumL hsumH
              refine ⟨by simpa using lenw, hlt, pair, ?_, ?_, ?_⟩
              · simp only [inFlight, List.length_append, List.length_cons, List.length_nil] at cnt ⊢; omega
              · simp [List.map_append, logr, List.range_succ]
              · simp only [countH] at hand ⊢; omega
          | none =>
              rw [spec_toStart_exhausted cfg s i hw hab hc]
              have hsumL := map_sum_set wLoad s.workers i _
                (WState.afterNext none) hw
              have hsumH := map_sum_set wHand s.workers i _
                (WState.afterNext none) hw
              simp only [wLoad, wHand] at hsumL hsumH
              refine ⟨by simpa using lenw, cLe, pair, ?_, logr, ?_⟩
              · simp only [inFlight, List.length_append, List.length_cons, List.length_nil] at cnt ⊢; omega
              · simp only [countH] at hand ⊢; omega
  | afterNext v =>
      cases v with
      | none =>
          rw [spec_afterNext_none cfg s i hw]
          have hsumL := map_sum_set wLoad s.workers i _ WState.done hw
          have hsumH := map_sum_set wHand s.workers i _ WState.done hw
          simp only [wLoad, wHand] at hsumL hsumH
          refine ⟨by simpa using lenw, cLe, pair, ?_, logr, ?_⟩
          · simp only [inFlight, List.length_append, List.length_cons, List.length_nil] at cnt ⊢; omega
          · simp only [countH] at hand ⊢; omega
      | some item =>
          cases hab : s.isAborted with
          | true =>
              rw [spec_afterNext_aborted cfg s i item hw hab]
              have hsumL := map_sum_set wLoad s.workers i _ WState.done hw
              have hsumH := map_sum_set wHand s.workers i _ WState.done hw
              simp only [wLoad, wHand] at hsumL hsumH
              refine ⟨by simpa using lenw, cLe, pair, ?_, logr, ?_⟩
              · simp only [inFlight, List.length_append, List.length_cons, List.length_nil] at cnt ⊢; omega
              · simp only [countH] at hand ⊢; omega
          | false =>
              rw [spec_afterNext_some cfg s i item hw hab]
              have hsumL := map_sum_set wLoad s.workers i _
                (WState.afterOp item) hw
              have hsumH := map_sum_set wHand s.workers i _
                (WState.afterOp item) hw
              simp only [wLoad, wHand] at hsumL hsumH
              refine ⟨by simpa using lenw, cLe, pair, ?_, logr, ?_⟩
              · simp only [inFlight, List.length_append, List.length_cons, List.length_nil] at cnt ⊢; omega
              · simp only [countH] at hand ⊢; omega
  | afterOp item =>
      cases hop : cfg.op item with
      | ok r =>
          cases hab : s.isAborted with
          | true =>
              rw [spec_afterOp_ok_aborted cfg s i item r hw hop hab]
              have hsumL := map_sum_set wLoad s.workers i _ WState.done hw
              have hsumH := map_sum_set wHand s.workers i _ WState.done hw
              simp only [wLoad, wHand] at hsumL hsumH
              refine ⟨by simpa using lenw, cLe, pair, ?_, logr, ?_⟩
              · simp only [inFlight, List.length_append, List.length_cons, List.length_nil] at cnt ⊢; omega
              · simp only [countH] at hand ⊢; omega
          | false =>
              cases hc : cfg.input[s.cursor]? with
              | some item2 =>
                  rw [spec_afterOp_ok_pull cfg s i item item2 r hw hop hab hc]
                  have hlt := getElem?_some_lt hc
                  have hsumL := map_sum_set wLoad s.workers i _
                    (WState.afterNext (some item2)) hw
                  have hsumH := map_sum_set wHand s.workers i _
                    (WState.afterNext (some item2)) hw
                  simp only [wLoad, wHand] at hsumL hsumH
                  refine ⟨by simpa using lenw, hlt, pair, ?_, ?_, ?_⟩
                  · simp only [inFlight, List.length_append, List.length_cons, List.length_nil] at cnt ⊢; omega
                  · simp [List.map_append, logr, List.range_succ]
                  · simp only [countH] at hand ⊢; omega
              | none =>
                  rw [spec_afterOp_ok_exhausted cfg s i item r hw hop hab hc]
                  have hsumL := map_sum_set wLoad s.workers i _
                    (WState.afterNext none) hw
                  have hsumH := map_sum_set wHand s.workers i _
                    (WState.afterNext none) hw
                  simp only [wLoad, wHand] at hsumL hsumH
                  refine ⟨by simpa using lenw, cLe, pair, ?_, logr, ?_⟩
                  · simp only [inFlight, List.length_append, List.length_cons, List.length_nil] at cnt ⊢; omega
                  · simp only [countH] at hand ⊢; omega
      | error e =>
          cases hh : cfg.handler with
          | some h =>
              rw [spec_afterOp_error_handler cfg s i item e h hw hop hh]
              have hsumL := map_sum_set wLoad s.workers i _
                (WState.afterHandler item e) hw
              have hsumH := map_sum_set wHand s.workers i _
                (WState.afterHandler item e) hw
              simp only [wLoad, wHand] at hsumL hsumH
              refine ⟨by simpa using lenw, cLe, ?_, ?_, logr, ?_⟩
              · exact List.rel_append pair (List.Forall₂.cons hop List.Forall₂.nil)
              · simp only [inFlight, List.length_append, List.length_cons, List.length_nil] at cnt ⊢; omega
              · simp only [countH] at hand ⊢; omega
          | none =>
              cases hab : s.isAborted with
              | true =>
                  rw [spec_afterOp_error_aborted cfg s i item e hw hop hh hab]
                  have hsumL := map_sum_set wLoad s.workers i _ WState.done hw
                  have hsumH := map_sum_set wHand s.workers i _ WState.done hw
                  simp only [wLoad, wHand] at hsumL hsumH
                  refine ⟨by simpa using lenw, cLe, ?_, ?_, logr, ?_⟩
                  · exact List.rel_append pair (List.Forall₂.cons hop List.Forall₂.nil)
                  · simp only [inFlight, List.length_append] at cnt ⊢
                    simp only [List.length_cons, List.length_nil]
                    omega
                  · simp only [countH] at hand ⊢; omega
              | false =>
                  cases hc : cfg.input[s.cursor]? with
                  | some item2 =>
                      rw [spec_afterOp_error_pull cfg s i item item2 e hw hop hh
                        hab hc]
                      have hlt := getElem?_some_lt hc
                      have hsumL := map_sum_set wLoad s.workers i _
                        (WState.afterNext (some item2)) hw
                      have hsumH := map_sum_set wHand s.workers i _
                        (WState.afterNext (some item2)) hw
                      simp only [wLoad, wHand] at hsumL hsumH
                      refine ⟨by simpa using lenw, hlt, ?_, ?_, ?_, ?_⟩
                      · exact List.rel_append pair (List.Forall₂.cons hop List.Forall₂.nil)
                      · simp only [inFlight, List.length_append] at cnt ⊢
                        simp only [List.length_cons, List.length_nil]
                        omega
                      · simp [List.map_append, logr, List.range_succ]
                      · simp only [countH] at hand ⊢; omega
                  | none =>
                      rw [spec_afterOp_error_exhausted cfg s i item e hw hop hh
                        hab hc]
                      have hsumL := map_sum_set wLoad s.workers i _
                        (WState.afterNext none) hw
                      have hsumH := map_sum_set wHand s.workers i _
                        (WState.afterNext none) hw
                      simp only [wLoad, wHand] at hsumL hsumH
                      refine ⟨by simpa using lenw, cLe, ?_, ?_, logr, ?_⟩
                      · exact List.rel_append pair (List.Forall₂.cons hop List.Forall₂.nil)
                      · simp only [inFlight, List.length_append] at cnt ⊢
                        simp only [List.length_cons, List.length_nil]
                        omega
                      · simp only [countH] at hand ⊢; omega
  | afterHandler item e =>
      cases hh : cfg.handler with
      | some h =>
          by_cases hstop : h e item = POOL_STOP_SIGNAL
          · rw [spec_afterHandler_stop cfg s i item e h hw hh hstop]
            have hsumL := map_sum_set wLoad s.workers i _ WState.done hw
            have hsumH := map_sum_set wHand s.workers i _ WState.done hw
            simp only [wLoad, wHand] at hsumL hsumH
            refine ⟨by simpa using lenw, cLe, pair, ?_, logr, ?_⟩
            · simp only [inFlight, List.length_append, List.length_cons, List.length_nil] at cnt ⊢; omega
            · simp only [countH] at hand ⊢; omega
          · cases hab : s.isAborted with
            | true =>
                rw [spec_afterHandler_go_aborted cfg s i item e h hw hh hstop hab]
                have hsumL := map_sum_set wLoad s.workers i _ WState.done hw
                have hsumH := map_sum_set wHand s.workers i _ WState.done hw
                simp only [wLoad, wHand] at hsumL hsumH
                refine ⟨by simpa using lenw, cLe, pair, ?_, logr, ?_⟩
                · simp only [inFlight, List.length_append, List.length_cons, List.length_nil] at cnt ⊢; omega
                · simp only [countH] at hand ⊢; omega
            | false =>
                cases hc : cfg.input[s.cursor]? with
                | some item2 =>
                    rw [spec_afterHandler_go_pull cfg s i item item2 e h hw hh
                      hstop hab hc]
                    have hlt := getElem?_some_lt hc
                    have hsumL := map_sum_set wLoad s.workers i _
                      (WState.afterNext (some item2)) hw
                    have hsumH := map_sum_set wHand s.workers i _
                      (WState.afterNext (some item2)) hw
                    simp only [wLoad, wHand] at hsumL hsumH
                    refine ⟨by simpa using lenw, hlt, pair, ?_, ?_, ?_⟩
                    · simp only [inFlight, List.length_append, List.length_cons, List.length_nil] at cnt ⊢; omega
                    · simp [List.map_append, logr, List.range_succ]
                    · simp only [countH] at hand ⊢; omega
                | none =>
                    rw [spec_afterHandler_go_exhausted cfg s i item e h hw hh
                      hstop hab hc]
                    have hsumL := map_sum_set wLoad s.workers i _
                      (WState.afterNext none) hw
                    have hsumH := map_sum_set wHand s.workers i _
                      (WState.afterNext none) hw
                    simp only [wLoad, wHand] at hsumL hsumH
                    refine ⟨by simpa using lenw, cLe, pair, ?_, logr, ?_⟩
                    · simp only [inFlight, List.length_append, List.length_cons, List.length_nil] at cnt ⊢; omega
                    · simp only [countH] at hand ⊢; omega
      | none =>
          cases hab : s.isAborted with
          | true =>
              rw [spec_afterHandler_none_aborted cfg s i item e hw hh hab]
              have hsumL := map_sum_set wLoad s.workers i _ WState.done hw
              have hsumH := map_sum_set wHand s.workers i _ WState.done hw
              simp only [wLoad, wHand] at hsumL hsumH
              refine ⟨by simpa using lenw, cLe, pair, ?_, logr, ?_⟩
              · simp only [inFlight, List.length_append, List.length_cons, List.length_nil] at cnt ⊢; omega
              · simp only [countH] at hand ⊢; omega
          | false =>
              cases hc : cfg.input[s.cursor]? with
              | some item2 =>
                  rw [spec_afterHandler_none_pull cfg s i item item2 e hw hh
                    hab hc]
                  have hlt := getElem?_some_lt hc
                  have hsumL := map_sum_set wLoad s.workers i _
                    (WState.afterNext (some item2)) hw
                  have hsumH := map_sum_set wHand s.workers i _
                    (WState.afterNext (some item2)) hw
                  simp only [wLoad, wHand] at hsumL hsumH
                  refine ⟨by simpa using lenw, hlt, pair, ?_, ?_, ?_⟩
                  · simp only [inFlight, List.length_append, List.length_cons, List.length_nil] at cnt ⊢; omega
                  · simp [List.map_append, logr, List.range_succ]
                  · simp only [countH] at hand ⊢; omega
              | none =>
                  rw [spec_afterHandler_none_exhausted cfg s i item e hw hh
                    hab hc]
                  have hsumL := map_sum_set wLoad s.workers i _
                    (WState.afterNext none) hw
                  have hsumH := map_sum_set wHand s.workers i _
                    (WState.afterNext none) hw
                  simp only [wLoad, wHand] at hsumL hsumH
                  refine ⟨by simpa using lenw, cLe, pair, ?_, logr, ?_⟩
                  · simp only [inFlight, List.length_append, List.length_cons, List.length_nil] at cnt ⊢; omega
                  · simp only [countH] at hand ⊢; omega

theorem reach_inv {cfg : PoolConfig T R E} {n : Nat} {s : PoolState T R E}
    (h : Reaches cfg (initState n) s) : Inv cfg n s := by
  induction h with
  | refl => exact inv_init cfg n
  | tail hab hbc ih =>
      obtain ⟨i, w, hi, hne, rfl⟩ := hbc
      exact inv_step cfg n _ i w hi ih

theorem getElem?_none_le {α : Type} {l : List α} {i : Nat}
    (h : l[i]? = none) : l.length ≤ i := by
  by_contra hb
  rw [List.getElem?_eq_getElem (Nat.lt_of_not_le hb)] at h
  exact Option.noConfusion h

/-- Invariants of runs whose handler never returns the stop sentinel. -/
structure InvNA (cfg : PoolConfig T R E) (s : PoolState T R E) : Prop where
  nab : s.isAborted = false
  cntEq : s.results.length + s.errors.length + inFlight s.workers = s.cursor
  exh : ∀ w ∈ s.workers, (w = WState.done ∨ w = WState.afterNext none) →
          s.cursor = cfg.input.length

theorem invNA_init (cfg : PoolConfig T R E) (n : Nat) :
    InvNA cfg (initState n) := by
  refine ⟨rfl, ?_, ?_⟩
  · simp [initState, inFlight, wLoad, List.map_replicate]
  · intro w hw hdn
    simp [initState, List.mem_replicate] at hw
    rcases hdn with h | h <;> rw [hw.2] at h <;> simp at h

theorem invNA_step (cfg : PoolConfig T R E) (n : Nat) (s : PoolState T R E)
    (i : Nat) (w : WState T E) (hns : NoStop cfg)
    (hw : s.workers[i]? = some w) (hInv : Inv cfg n s) (hA : InvNA cfg s) :
    InvNA cfg (stepPool cfg s i) := by
  obtain ⟨lenw, cLe, pair, cnt, logr, hand⟩ := hInv
  obtain ⟨nab, cntEq, exh⟩ := hA
  cases w with
  | done =>
      rw [spec_done cfg s i hw]
      have hsumL := map_sum_set wLoad s.workers i _ WState.done hw
      simp only [wLoad] at hsumL
      refine ⟨nab, ?_, ?_⟩
      · simp only [inFlight] at cntEq ⊢; omega
      · intro w' hmem hdn
        rcases List.mem_or_eq_of_mem_set hmem with hm | rfl
        · exact exh w' hm hdn
        · exact exh _ (getElem?_some_mem hw) (Or.inl rfl)
  | toStart =>
      cases hc : cfg.input[s.cursor]? with
      | some item =>
          rw [spec_toStart_pull cfg s i item hw nab hc]
          have hlt := getElem?_some_lt hc
          have hsumL := map_sum_set wLoad s.workers i _
            (WState.afterNext (some item)) hw
          simp only [wLoad] at hsumL
          refine ⟨nab, ?_, ?_⟩
          · simp only [inFlight] at cntEq ⊢; omega
          · intro w' hmem hdn
            rcases List.mem_or_eq_of_mem_set hmem with hm | rfl
            · have := exh w' hm hdn; omega
            · rcases hdn with h | h <;> simp at h
      | none =>
          rw [spec_toStart_exhausted cfg s i hw nab hc]
          have hlen := getElem?_none_le hc
          have hsumL := map_sum_set wLoad s.workers i _
            (WState.afterNext none) hw
          simp only [wLoad] at hsumL
          refine ⟨nab, ?_, ?_⟩
          · simp only [inFlight] at cntEq ⊢; omega
          · intro w' hmem hdn
            show s.cursor = cfg.input.length
            omega
  | afterNext v =>
      cases v with
      | none =>
          rw [spec_afterNext_none cfg s i hw]
          have hsumL := map_sum_set wLoad s.workers i _ WState.done hw
          simp only [wLoad] at hsumL
          refine ⟨nab, ?_, ?_⟩
          · simp only [inFlight] at cntEq ⊢; omega
          · intro w' hmem hdn
            exact exh _ (getElem?_some_mem hw) (Or.inr rfl)
      | some item =>
          rw [spec_afterNext_some cfg s i item hw nab]
          have hsumL := map_sum_set wLoad s.workers i _
            (WState.afterOp item) hw
          simp only [wLoad] at hsumL
          refine ⟨nab, ?_, ?_⟩
          · simp only [inFlight] at cntEq ⊢; omega
          · intro w' hmem hdn
            rcases List.mem_or_eq_of_mem_set hmem with hm | rfl
            · exact exh w' hm hdn
            · rcases hdn with h | h <;> simp at h
  | afterOp item =>
      cases hop : cfg.op item with
      | ok r =>
          cases hc : cfg.input[s.cursor]? with
          | some item2 =>
              rw [spec_afterOp_ok_pull cfg s i item item2 r hw hop nab hc]
              have hlt := getElem?_some_lt hc
              have hsumL := map_sum_set wLoad s.workers i _
                (WState.afterNext (some item2)) hw
              simp only [wLoad] at hsumL
              refine ⟨nab, ?_, ?_⟩
              · simp only [inFlight, List.length_append, List.length_cons,
                  List.length_nil] at cntEq ⊢
                omega
              · intro w' hmem hdn
                rcases List.mem_or_eq_of_mem_set hmem with hm | rfl
                · have := exh w' hm hdn; omega
                · rcases hdn with h | h <;> simp at h
          | none =>
              rw [spec_afterOp_ok_exhausted cfg s i item r hw hop nab hc]
              have hlen := getElem?_none_le hc
              have hsumL := map_sum_set wLoad s.workers i _
                (WState.afterNext none) hw
              simp only [wLoad] at hsumL
              refine ⟨nab, ?_, ?_⟩
              · simp only [inFlight, List.length_append, List.length_cons,
                  List.length_nil] at cntEq ⊢
                omega
              · intro w' hmem hdn
                show s.cursor = cfg.input.length
                omega
      | error e =>
          cases hh : cfg.handler with
          | some h =>
              rw [spec_afterOp_error_handler cfg s i item e h hw hop hh]
              have hsumL := map_sum_set wLoad s.workers i _
                (WState.afterHandler item e) hw
              simp only [wLoad] at hsumL
              refine ⟨nab, ?_, ?_⟩
              · simp only [inFlight, List.length_append, List.length_cons,
                  List.length_nil] at cntEq ⊢
                omega
              · intro w' hmem hdn
                rcases List.mem_or_eq_of_mem_set hmem with hm | rfl
                · exact exh w' hm hdn
                · rcases hdn with h2 | h2 <;> simp at h2
          | none =>
              cases hc : cfg.input[s.cursor]? with
              | some item2 =>
                  rw [spec_afterOp_error_pull cfg s i item item2 e hw hop hh
                    nab hc]
                  have hlt := getElem?_some_lt hc
                  have hsumL := map_sum_set wLoad s.workers i _
                    (WState.afterNext (some item2)) hw
                  simp only [wLoad] at hsumL
                  refine ⟨nab, ?_, ?_⟩
                  · simp only [inFlight, List.length_append, List.length_cons,
                      List.length_nil] at cntEq ⊢
                    omega
                  · intro w' hmem hdn
                    rcases List.mem_or_eq_of_mem_set hmem with hm | rfl
                    · have := exh w' hm hdn; omega
                    · rcases hdn with h2 | h2 <;> simp at h2
              | none =>
                  rw [spec_afterOp_error_exhausted cfg s i item e hw hop hh
                    nab hc]
                  have hlen := getElem?_none_le hc
                  have hsumL := map_sum_set wLoad s.workers i _
                    (WState.afterNext none) hw
                  simp only [wLoad] at hsumL
                  refine ⟨nab, ?_, ?_⟩
                  · simp only [inFlight, List.length_append, List.length_cons,
                      List.length_nil] at cntEq ⊢
                    omega
                  · intro w' hmem hdn
                    show s.cursor = cfg.input.length
                    omega
  | afterHandler item e =>
      cases hh : cfg.handler with
      | some h =>
          have hstop : h e item ≠ POOL_STOP_SIGNAL := hns h hh e item
          cases hc : cfg.input[s.cursor]? with
          | some item2 =>
              rw [spec_afterHandler_go_pull cfg s i item item2 e h hw hh
                hstop nab hc]
              have hlt := getElem?_some_lt hc
              have hsumL := map_sum_set wLoad s.workers i _
                (WState.afterNext (some item2)) hw
              simp only [wLoad] at hsumL
              refine ⟨nab, ?_, ?_⟩
              · simp only [inFlight] at cntEq ⊢; omega
              · intro w' hmem hdn
                rcases List.mem_or_eq_of_mem_set hmem with hm | rfl
                · have := exh w' hm hdn; omega
                · rcases hdn with h2 | h2 <;> simp at h2
          | none =>
              rw [spec_afterHandler_go_exhausted cfg s i item e h hw hh
                hstop nab hc]
              have hlen := getElem?_none_le hc
              have hsumL := map_sum_set wLoad s.workers i _
                (WState.afterNext none) hw
              simp only [wLoad] at hsumL
              refine ⟨nab, ?_, ?_⟩
              · simp only [inFlight] at cntEq ⊢; omega
              · intro w' hmem hdn
                show s.cursor = cfg.input.length
                omega
      | none =>
          cases hc : cfg.input[s.cursor]? with
          | some item2 =>
              rw [spec_afterHandler_none_pull cfg s i item item2 e hw hh
                nab hc]
              have hlt := getElem?_some_lt hc
              have hsumL := map_sum_set wLoad s.workers i _
                (WState.afterNext (some item2)) hw
              simp only [wLoad] at hsumL
              refine ⟨nab, ?_, ?_⟩
              · simp only [inFlight] at cntEq ⊢; omega
              · intro w' hmem hdn
                rcases List.mem_or_eq_of_mem_set hmem with hm | rfl
                · have := exh w' hm hdn; omega
                · rcases hdn with h2 | h2 <;> simp at h2
          | none =>
              rw [spec_afterHandler_none_exhausted cfg s i item e hw hh
                nab hc]
              have hlen := getElem?_none_le hc
              have hsumL := map_sum_set wLoad s.workers i _
                (WState.afterNext none) hw
              simp only [wLoad] at hsumL
              refine ⟨nab, ?_, ?_⟩
              · simp only [inFlight] at cntEq ⊢; omega
              · intro w' hmem hdn
                show s.cursor = cfg.input.length
                omega

theorem reach_invNA {cfg : PoolConfig T R E} {n : Nat} {s : PoolState T R E}
    (hns : NoStop cfg) (h : Reaches cfg (initState n) s) : InvNA cfg s := by
  induction h with
  | refl => exact invNA_init cfg n
  | tail hab hbc ih =>
      obtain ⟨i, w, hi, hne, rfl⟩ := hbc
      exact invNA_step cfg n _ i w hns hi (reach_inv hab) ih

theorem isDone_eq {w : WState T E} (h : isDone w = true) : w = WState.done := by
  cases w <;> simp [isDone] at h ⊢

theorem firstActive_none_all {ws : List (WState T E)}
    (h : firstActive ws = none) : ∀ w ∈ ws, w = WState.done := by
  induction ws with
  | nil => simp
  | cons a t ih =>
      intro w hw
      simp only [firstActive] at h
      by_cases ha : isDone a
      · rw [if_pos ha] at h
        have ht : firstActive t = none := by
          cases hft : firstActive t with
          | none => rfl
          | some j => rw [hft] at h; simp at h
        rcases List.mem_cons.mp hw with rfl | hw2
        · exact isDone_eq ha
        · exact ih ht w hw2
      · rw [if_neg ha] at h
        exact Option.noConfusion h

theorem all_done_firstActive {ws : List (WState T E)}
    (h : ∀ w ∈ ws, w = WState.done) : firstActive ws = none := by
  induction ws with
  | nil => rfl
  | cons a t ih =>
      have ha : a = WState.done := h a (List.mem_cons_self a t)
      simp only [firstActive, ha, isDone, if_pos]
      rw [ih (fun w hw => h w (List.mem_cons_of_mem a hw))]
      rfl

theorem firstActive_some_active {ws : List (WState T E)} {i : Nat}
    (h : firstActive ws = some i) :
    ∃ w, ws[i]? = some w ∧ w ≠ WState.done := by
  induction ws generalizing i with
  | nil => exact Option.noConfusion h
  | cons a t ih =>
      simp only [firstActive] at h
      by_cases ha : isDone a
      · rw [if_pos ha] at h
        cases hft : firstActive t with
        | none => rw [hft] at h; exact Option.noConfusion h
        | some j =>
            rw [hft] at h
            obtain ⟨w, hw, hne⟩ := ih hft
            refine ⟨w, ?_, hne⟩
            have h2 : j + 1 = i := Option.some.inj h
            rw [← h2]
            simpa using hw
      · rw [if_neg ha] at h
        have : i = 0 := (Option.some.inj h).symm
        subst this
        refine ⟨a, by simp, ?_⟩
        intro had
        rw [had] at ha
        exact ha rfl

theorem terminal_no_step {cfg : PoolConfig T R E} {s s' : PoolState T R E}
    (ht : Terminal s) : ¬ Step cfg s s' := by
  rintro ⟨i, w, hi, hne, rfl⟩
  exact hne (firstActive_none_all ht w (getElem?_some_mem hi))

theorem runFuel_reaches (cfg : PoolConfig T R E) (fuel : Nat)
    (s : PoolState T R E) : Reaches cfg s (runFuel cfg fuel s) := by
  induction fuel generalizing s with
  | zero => exact Relation.ReflTransGen.refl
  | succ k ih =>
      cases hfa : firstActive s.workers with
      | none =>
          simp only [runFuel, hfa]
          exact Relation.ReflTransGen.refl
      | some i =>
          simp only [runFuel, hfa]
          obtain ⟨w, hw, hne⟩ := firstActive_some_active hfa
          exact Relation.ReflTransGen.head ⟨i, w, hw, hne, rfl⟩ (ih _)

theorem potential_step (cfg : PoolConfig T R E) (s : PoolState T R E)
    (i : Nat) (w : WState T E) (hw : s.workers[i]? = some w)
    (hne : w ≠ WState.done) :
    potential cfg (stepPool cfg s i) < potential cfg s := by
  cases w with
  | done => exact absurd rfl hne
  | toStart =>
      have hsumR := map_sum_set wRank s.workers i _ WState.done hw
      cases hab : s.isAborted with
      | true =>
          rw [spec_toStart_aborted cfg s i hw hab]
          simp only [wRank] at hsumR
          simp only [potential, rankSum]
          omega
      | false =>
          cases hc : cfg.input[s.cursor]? with
          | some item =>
              rw [spec_toStart_pull cfg s i item hw hab hc]
              have hlt := getElem?_some_lt hc
              have hsumR2 := map_sum_set wRank s.workers i _
                (WState.afterNext (some item)) hw
              simp only [wRank] at hsumR2
              simp only [potential, rankSum]
              omega
          | none =>
              rw [spec_toStart_exhausted cfg s i hw hab hc]
              have hsumR2 := map_sum_set wRank s.workers i _
                (WState.afterNext none) hw
              simp only [wRank] at hsumR2
              simp only [potential, rankSum]
              omega
  | afterNext v =>
      cases v with
      | none =>
          rw [spec_afterNext_none cfg s i hw]
          have hsumR := map_sum_set wRank s.workers i _ WState.done hw
          simp only [wRank] at hsumR
          simp only [potential, rankSum]
          omega
      | some item =>
          cases hab : s.isAborted with
          | true =>
              rw [spec_afterNext_aborted cfg s i item hw hab]
              have hsumR := map_sum_set wRank s.workers i _ WState.done hw
              simp only [wRank] at hsumR
              simp only [potential, rankSum]
              omega
          | false =>
              rw [spec_afterNext_some cfg s i item hw hab]
              have hsumR := map_sum_set wRank s.workers i _
                (WState.afterOp item) hw
              simp only [wRank] at hsumR
              simp only [potential, rankSum]
              omega
  | afterOp item =>
      cases hop : cfg.op item with
      | ok r =>
          cases hab : s.isAborted with
          | true =>
              rw [spec_afterOp_ok_aborted cfg s i item r hw hop hab]
              have hsumR := map_sum_set wRank s.workers i _ WState.done hw
              simp only [wRank] at hsumR
              simp only [potential, rankSum]
              omega
          | false =>
              cases hc : cfg.input[s.cursor]? with
              | some item2 =>
                  rw [spec_afterOp_ok_pull cfg s i item item2 r hw hop hab hc]
                  have hlt := getElem?_some_lt hc
                  have hsumR := map_sum_set wRank s.workers i _
                    (WState.afterNext (some item2)) hw
                  simp only [wRank] at hsumR
                  simp only [potential, rankSum]
                  omega
              | none =>
                  rw [spec_afterOp_ok_exhausted cfg s i item r hw hop hab hc]
                  have hsumR := map_sum_set wRank s.workers i _
                    (WState.afterNext none) hw
                  simp only [wRank] at hsumR
                  simp only [potential, rankSum]
                  omega
      | error e =>
          cases hh : cfg.handler with
          | some h =>
              rw [spec_afterOp_error_handler cfg s i item e h hw hop hh]
              have hsumR := map_sum_set wRank s.workers i _
                (WState.afterHandler item e) hw
              simp only [wRank] at hsumR
              simp only [potential, rankSum]
              omega
          | none =>
              cases hab : s.isAborted with
              | true =>
                  rw [spec_afterOp_error_aborted cfg s i item e hw hop hh hab]
                  have hsumR := map_sum_set wRank s.workers i _ WState.done hw
                  simp only [wRank] at hsumR
                  simp only [potential, rankSum]
                  omega
              | false =>
                  cases hc : cfg.input[s.cursor]? with
                  | some item2 =>
                      rw [spec_afterOp_error_pull cfg s i item item2 e hw hop
                        hh hab hc]
                      have hlt := getElem?_some_lt hc
                      have hsumR := map_sum_set wRank s.workers i _
                        (WState.afterNext (some item2)) hw
                      simp only [wRank] at hsumR
                      simp only [potential, rankSum]
                      omega
                  | none =>
                      rw [spec_afterOp_error_exhausted cfg s i item e hw hop
                        hh hab hc]
                      have hsumR := map_sum_set wRank s.workers i _
                        (WState.afterNext none) hw
                      simp only [wRank] at hsumR
                      simp only [potential, rankSum]
                      omega
  | afterHandler item e =>
      cases hh : cfg.handler with
      | some h =>
          by_cases hstop : h e item = POOL_STOP_SIGNAL
          · rw [spec_afterHandler_stop cfg s i item e h hw hh hstop]
            have hsumR := map_sum_set wRank s.workers i _ WState.done hw
            simp only [wRank] at hsumR
            simp only [potential, rankSum]
            omega
          · cases hab : s.isAborted with
            | true =>
                rw [spec_afterHandler_go_aborted cfg s i item e h hw hh hstop
                  hab]
                have hsumR := map_sum_set wRank s.workers i _ WState.done hw
                simp only [wRank] at hsumR
                simp only [potential, rankSum]
                omega
            | false =>
                cases hc : cfg.input[s.cursor]? with
                | some item2 =>
                    rw [spec_afterHandler_go_pull cfg s i item item2 e h hw hh
                      hstop hab hc]
                    have hlt := getElem?_some_lt hc
                    have hsumR := map_sum_set wRank s.workers i _
                      (WState.afterNext (some item2)) hw
                    simp only [wRank] at hsumR
                    simp only [potential, rankSum]
                    omega
                | none =>
                    rw [spec_afterHandler_go_exhausted cfg s i item e h hw hh
                      hstop hab hc]
                    have hsumR := map_sum_set wRank s.workers i _
                      (WState.afterNext none) hw
                    simp only [wRank] at hsumR
                    simp only [potential, rankSum]
                    omega
      | none =>
          cases hab : s.isAborted with
          | true =>
              rw [spec_afterHandler_none_aborted cfg s i item e hw hh hab]
              have hsumR := map_sum_set wRank s.workers i _ WState.done hw
              simp only [wRank] at hsumR
              simp only [potential, rankSum]
              omega
          | false =>
              cases hc : cfg.input[s.cursor]? with
              | some item2 =>
                  rw [spec_afterHandler_none_pull cfg s i item item2 e hw hh
                    hab hc]
                  have hlt := getElem?_some_lt hc
                  have hsumR := map_sum_set wRank s.workers i _
                    (WState.afterNext (some item2)) hw
                  simp only [wRank] at hsumR
                  simp only [potential, rankSum]
                  omega
              | none =>
                  rw [spec_afterHandler_none_exhausted cfg s i item e hw hh
                    hab hc]
                  have hsumR := map_sum_set wRank s.workers i _
                    (WState.afterNext none) hw
                  simp only [wRank] at hsumR
                  simp only [potential, rankSum]
                  omega

theorem wRank_zero_done {w : WState T E} (h : wRank w = 0) :
    w = WState.done := by
  cases w with
  | afterNext v => cases v <;> simp [wRank] at h
  | _ => first | rfl | simp [wRank] at h

theorem runFuel_terminal (cfg : PoolConfig T R E) :
    ∀ (fuel : Nat) (s : PoolState T R E), potential cfg s ≤ fuel →
      Terminal (runFuel cfg fuel s) := by
  intro fuel
  induction fuel with
  | zero =>
      intro s h
      have hr : rankSum s.workers = 0 := by
        simp only [potential] at h; omega
      have hall : ∀ w ∈ s.workers, w = WState.done := by
        intro w hwmem
        refine wRank_zero_done ?_
        have : wRank w ≤ (s.workers.map wRank).sum :=
          List.single_le_sum (fun x hx => Nat.zero_le x) _
            (List.mem_map_of_mem wRank hwmem)
        simp only [rankSum] at hr
        omega
      exact all_done_firstActive hall
  | succ k ih =>
      intro s h
      cases hfa : firstActive s.workers with
      | none =>
          simp only [runFuel, hfa]
          exact hfa
      | some i =>
          simp only [runFuel, hfa]
          obtain ⟨w, hw, hne⟩ := firstActive_some_active hfa
          have hdec := potential_step cfg s i w hw hne
          exact ih _ (by omega)

theorem reach_through {α : Type} {R : α → α → Prop} {root t1 : α}
    (hdet : ∀ a, Relation.ReflTransGen R root a → ∀ b c, R a b → R a c → b = c)
    (h1 : Relation.ReflTransGen R root t1) (hmax : ∀ b, ¬ R t1 b) :
    ∀ x, Relation.ReflTransGen R root x → Relation.ReflTransGen R x t1 := by
  intro x hx
  induction hx with
  | refl => exact h1
  | tail hab hbc ih =>
      rcases Relation.ReflTransGen.cases_head ih with heq | ⟨d, hbd, hdt1⟩
      · exact absurd (heq ▸ hbc) (hmax _)
      · have hcd := hdet _ hab _ _ hbc hbd
        exact hcd ▸ hdt1

theorem reach_unique {α : Type} {R : α → α → Prop} {root t1 t2 : α}
    (hdet : ∀ a, Relation.ReflTransGen R root a → ∀ b c, R a b → R a c → b = c)
    (h1 : Relation.ReflTransGen R root t1) (hm1 : ∀ b, ¬ R t1 b)
    (h2 : Relation.ReflTransGen R root t2) (hm2 : ∀ b, ¬ R t2 b) :
    t1 = t2 := by
  have h := reach_through hdet h1 hm1 t2 h2
  rcases Relation.ReflTransGen.cases_head h with heq | ⟨d, hd, _⟩
  · exact heq.symm
  · exact absurd hd (hm2 d)

theorem step_det_one {cfg : PoolConfig T R E} {s : PoolState T R E}
    (hlen : s.workers.length = 1) :
    ∀ b c, Step cfg s b → Step cfg s c → b = c := by
  rintro b c ⟨i, w, hi, hne, rfl⟩ ⟨j, w2, hj, hne2, rfl⟩
  have hi1 : i < 1 := hlen ▸ getElem?_some_lt hi
  have hj1 : j < 1 := hlen ▸ getElem?_some_lt hj
  have hij : i = j := by omega
  rw [hij]

theorem terminal_inFlight_zero {s : PoolState T R E} (ht : Terminal s) :
    inFlight s.workers = 0 := by
  have hall := firstActive_none_all ht
  unfold inFlight
  refine List.sum_eq_zero ?_
  intro x hx
  obtain ⟨w, hwmem, rfl⟩ := List.mem_map.mp hx
  rw [hall w hwmem]
  rfl

theorem terminal_countH_zero {s : PoolState T R E} (ht : Terminal s) :
    countH s.workers = 0 := by
  have hall := firstActive_none_all ht
  unfold countH
  refine List.sum_eq_zero ?_
  intro x hx
  obtain ⟨w, hwmem, rfl⟩ := List.mem_map.mp hx
  rw [hall w hwmem]
  rfl

/-- C1: for every finite input of length M run to exhaustion with no abort
(the handler never returns the stop sentinel, or no handler is given), the
outcome of any schedule satisfies results.length + errors.length = M and
failedItems.length = errors.length. -/
theorem claim1_completeness_no_abort (cfg : PoolConfig T R E) (n : Nat)
    (s : PoolState T R E) (hn : 0 < n) (hns : NoStop cfg)
    (hr : Reaches cfg (initState n) s) (ht : Terminal s) :
    s.results.length + s.errors.length = cfg.input.length ∧
    s.failedItems.length = s.errors.length := by
  have hInv := reach_inv hr
  have hNA := reach_invNA hns hr
  have hall := firstActive_none_all ht
  have hIF := terminal_inFlight_zero ht
  have hne : s.workers ≠ [] := by
    intro hnil
    have := hInv.lenw
    rw [hnil] at this
    simp at this
    omega
  obtain ⟨w0, hw0⟩ := List.exists_mem_of_ne_nil s.workers hne
  have hcur : s.cursor = cfg.input.length :=
    hNA.exh w0 hw0 (Or.inl (hall w0 hw0))
  have hcnt := hNA.cntEq
  have hlen2 := hInv.pair.length_eq
  exact ⟨by omega, hlen2.symm⟩

/-- Input for the C1 witness: three items, an operation that always
succeeds, no handler. -/
def c1cfg : PoolConfig Nat Nat Nat :=
  ⟨[10, 20, 30], fun t => Except.ok (t + 1), none⟩

/-- Witness for C1 at a concrete run with two workers. -/
theorem claim1_completeness_no_abort_witness :
    (runFuel c1cfg 30 (initState 2)).results.length +
        (runFuel c1cfg 30 (initState 2)).errors.length = c1cfg.input.length ∧
    (runFuel c1cfg 30 (initState 2)).failedItems.length =
        (runFuel c1cfg 30 (initState 2)).errors.length :=
  claim1_completeness_no_abort c1cfg 2 _ (by decide)
    (by intro h hh e t; simp [c1cfg] at hh)
    (runFuel_reaches c1cfg 30 (initState 2)) (by decide)

/-- C2: a failure raised by the per-item operation never propagates to the
caller.  First conjunct: every failure of the call is a validation error or
the array-creation RangeError, and neither depends on the per-item
operation at all.  Second conjunct: whenever a pool actually runs (the
arguments pass validation and the worker array is created), the call
returns an outcome for every operation, including ones failing on every
item; the run behind the outcome is complete (all workers joined) and
every recorded error is exactly the failure the operation produces on the
paired failed item. -/
theorem claim2_never_raises_for_item_failures (T R E : Type) :
    (∀ (a : RawArgs) (cfg : PoolConfig T R E) (msg : String),
        promisePool a cfg = Except.error msg →
        _validateInput a = some msg ∨
          (_validateInput a = none ∧ numWorkers a.concurrency = none ∧
           msg = "Invalid array length")) ∧
    (∀ (a : RawArgs) (cfg : PoolConfig T R E) (n : Nat),
        _validateInput a = none → numWorkers a.concurrency = some n →
        ∃ out, promisePool a cfg = Except.ok out ∧
          Terminal (finalState cfg n) ∧
          List.Forall₂ (fun e t => cfg.op t = Except.error e)
            out.errors out.failedItems) := by
  constructor
  · intro a cfg msg herr
    unfold promisePool at herr
    cases hv : _validateInput a with
    | some m =>
        rw [hv] at herr
        rw [Except.error.inj herr]
        exact Or.inl rfl
    | none =>
        rw [hv] at herr
        cases hn : numWorkers a.concurrency with
        | some n => rw [hn] at herr; exact Except.noConfusion herr
        | none =>
            rw [hn] at herr
            exact Or.inr ⟨rfl, rfl, (Except.error.inj herr).symm⟩
  · intro a cfg n hv hn
    refine ⟨outcome (finalState cfg n), ?_, ?_, ?_⟩
    · unfold promisePool
      rw [hv, hn]
    · refine runFuel_terminal cfg _ _ ?_
      unfold potential fuelBound rankSum initState
      simp only [List.map_replicate, List.sum_replicate, wRank, smul_eq_mul]
      omega
    · have hr := runFuel_reaches cfg (fuelBound cfg n) (initState n)
      have hInv := reach_inv hr
      exact hInv.pair

/-- Arguments for the C2 witness: all four checks pass, concurrency 2. -/
def c2args : RawArgs := ⟨true, true, true, JSNumber.fin 2, false, false⟩

/-- Arguments with a validated infinite concurrency, on which the call
throws the array-creation RangeError rather than an operation failure. -/
def c2infargs : RawArgs := ⟨true, true, true, JSNumber.posInf, false, false⟩

/-- Input for the C2 witness: the operation fails on every item. -/
def c2cfg : PoolConfig Nat Nat Nat :=
  ⟨[1, 2], fun t => Except.error (t * 7), none⟩

/-- Witness for C2: the failure of the infinite-concurrency call is the
array-creation error, not an operation failure, and a concrete call whose
operation fails on every item returns an outcome with both failures
recorded. -/
theorem claim2_never_raises_for_item_failures_witness :
    (_validateInput c2infargs = some ("Invalid array length") ∨
      (_validateInput c2infargs = none ∧
       numWorkers c2infargs.concurrency = none ∧
       ("Invalid array length" : String) = "Invalid array length")) ∧
    (∃ out, promisePool c2args c2cfg = Except.ok out ∧
      Terminal (finalState c2cfg 2) ∧
      List.Forall₂ (fun e t => c2cfg.op t = Except.error e)
        out.errors out.failedItems) :=
  ⟨(claim2_never_raises_for_item_failures Nat Nat Nat).1 c2infargs c2cfg
     ("Invalid array length") rfl,
   (claim2_never_raises_for_item_failures Nat Nat Nat).2 c2args c2cfg 2
     (by decide) (by decide)⟩

/-- C3: the atomic block that records a failure appends exactly one entry
to errors and exactly one entry to failedItems, unconditionally (in
particular in aborted states); consequently in every reachable state
errors.length = failedItems.length and results.length + errors.length
never exceeds the cursor, the number of items consumed from the source. -/
theorem claim3_failure_always_recorded (T R E : Type) :
    (∀ (cfg : PoolConfig T R E) (s : PoolState T R E) (i : Nat) (item : T)
        (e : E), s.workers[i]? = some (WState.afterOp item) →
        cfg.op item = Except.error e →
        (stepPool cfg s i).errors = s.errors ++ [e] ∧
        (stepPool cfg s i).failedItems = s.failedItems ++ [item]) ∧
    (∀ (cfg : PoolConfig T R E) (n : Nat) (s : PoolState T R E),
        Reaches cfg (initState n) s →
        s.errors.length = s.failedItems.length ∧
        s.results.length + s.errors.length ≤ s.cursor) := by
  constructor
  · intro cfg s i item e hw hop
    cases hh : cfg.handler with
    | some h =>
        rw [spec_afterOp_error_handler cfg s i item e h hw hop hh]
        exact ⟨rfl, rfl⟩
    | none =>
        cases hab : s.isAborted with
        | true =>
            rw [spec_afterOp_error_aborted cfg s i item e hw hop hh hab]
            exact ⟨rfl, rfl⟩
        | false =>
            cases hc : cfg.input[s.cursor]? with
            | some item2 =>
                rw [spec_afterOp_error_pull cfg s i item item2 e hw hop hh
                  hab hc]
                exact ⟨rfl, rfl⟩
            | none =>
                rw [spec_afterOp_error_exhausted cfg s i item e hw hop hh
                  hab hc]
                exact ⟨rfl, rfl⟩
  · intro cfg n s hr
    have hInv := reach_inv hr
    have hcnt := hInv.cnt
    exact ⟨hInv.pair.length_eq, by omega⟩

/-- State for the first conjunct of the C3 witness: one worker suspended in
the operation on item 5, in an aborted state. -/
def c3state : PoolState Nat Nat Nat :=
  ⟨1, [], [], [], true, [WState.afterOp 5], [(0, 0)], [5], 0, 0⟩

/-- Input for the C3 witness: the operation fails on every item. -/
def c3cfg : PoolConfig Nat Nat Nat :=
  ⟨[5], fun t => Except.error (t + 1), none⟩

/-- Witness for C3: the failure of item 5 is recorded even though the state
is already aborted, and the counting invariants hold of a concrete run. -/
theorem claim3_failure_always_recorded_witness :
    ((stepPool c3cfg c3state 0).errors = c3state.errors ++ [6] ∧
     (stepPool c3cfg c3state 0).failedItems = c3state.failedItems ++ [5]) ∧
    ((runFuel c3cfg 20 (initState 1)).errors.length =
        (runFuel c3cfg 20 (initState 1)).failedItems.length ∧
     (runFuel c3cfg 20 (initState 1)).results.length +
        (runFuel c3cfg 20 (initState 1)).errors.length ≤
        (runFuel c3cfg 20 (initState 1)).cursor) :=
  ⟨(claim3_failure_always_recorded Nat Nat Nat).1 c3cfg c3state 0 5 6 rfl rfl,
   (claim3_failure_always_recorded Nat Nat Nat).2 c3cfg 1 _
     (runFuel_reaches c3cfg 20 (initState 1))⟩

/-- C6: the atomic block that resumes after a successful operation appends
the result to the success list exactly when the abort flag is clear at that
moment: a success completing after the abort flag is set is suppressed, a
success completing before is appended. -/
theorem claim6_success_suppressed_after_abort (cfg : PoolConfig T R E)
    (s : PoolState T R E) (i : Nat) (item : T) (r : R)
    (hw : s.workers[i]? = some (WState.afterOp item))
    (hop : cfg.op item = Except.ok r) :
    (stepPool cfg s i).results =
      if s.isAborted = true then s.results else s.results ++ [r] := by
  cases hab : s.isAborted with
  | true =>
      rw [spec_afterOp_ok_aborted cfg s i item r hw hop hab]
      simp
  | false =>
      cases hc : cfg.input[s.cursor]? with
      | some item2 =>
          rw [spec_afterOp_ok_pull cfg s i item item2 r hw hop hab hc]
          simp
      | none =>
          rw [spec_afterOp_ok_exhausted cfg s i item r hw hop hab hc]
          simp

/-- State for the C6 witness: one worker suspended in the operation on item
4, in a state aborted in the meantime. -/
def c6state : PoolState Nat Nat Nat :=
  ⟨1, [], [], [], true, [WState.afterOp 4], [(0, 0)], [4], 0, 0⟩

/-- Input for the C6 witness: the operation doubles its item. -/
def c6cfg : PoolConfig Nat Nat Nat :=
  ⟨[4], fun t => Except.ok (t * 2), none⟩

/-- Witness for C6: the success of item 4 is suppressed because the state
is aborted. -/
theorem claim6_success_suppressed_after_abort_witness :
    (stepPool c6cfg c6state 0).results =
      if c6state.isAborted = true then c6state.results
      else c6state.results ++ [8] :=
  claim6_success_suppressed_after_abort c6cfg c6state 0 4 8 rfl rfl

/-- C7: in every terminal state of every run, every handler invocation that
was started has completed (the worker that raised the failure waits for the
handler), and every worker has terminated (the call joins all workers
before returning). -/
theorem claim7_handlers_complete_before_return (cfg : PoolConfig T R E)
    (n : Nat) (s : PoolState T R E) (hr : Reaches cfg (initState n) s)
    (ht : Terminal s) :
    s.handlersStarted = s.handlersCompleted ∧
    ∀ w ∈ s.workers, w = WState.done := by
  have hInv := reach_inv hr
  have hc := terminal_countH_zero ht
  have hh := hInv.hand
  exact ⟨by omega, firstActive_none_all ht⟩

/-- Input for the C7 witness: every item fails and a handler is installed. -/
def c7cfg : PoolConfig Nat Nat Nat :=
  ⟨[1, 2], fun t => Except.error t, some (fun _ _ => HandlerRet.undef)⟩

/-- Witness for C7 at a concrete run with a handler. -/
theorem claim7_handlers_complete_before_return_witness :
    (runFuel c7cfg 30 (initState 1)).handlersStarted =
        (runFuel c7cfg 30 (initState 1)).handlersCompleted ∧
    ∀ w ∈ (runFuel c7cfg 30 (initState 1)).workers, w = WState.done :=
  claim7_handlers_complete_before_return c7cfg 1 _
    (runFuel_reaches c7cfg 30 (initState 1)) (by decide)

/-- C8: the abort flag is set by the handler-resumption block exactly when
the handler returned the distinguished sentinel POOL_STOP_SIGNAL (any other
return value leaves the flag as it was); consequently a run with no handler
or whose handler never returns the sentinel never sets the flag, so it ends
with stoppedPrematurely = false. -/
theorem claim8_abort_iff_sentinel (T R E : Type) :
    (∀ (cfg : PoolConfig T R E) (s : PoolState T R E) (i : Nat) (item : T)
        (e : E) (h : E → T → HandlerRet),
        s.workers[i]? = some (WState.afterHandler item e) →
        cfg.handler = some h →
        (stepPool cfg s i).isAborted =
          (s.isAborted || decide (h e item = POOL_STOP_SIGNAL))) ∧
    (∀ (cfg : PoolConfig T R E) (n : Nat) (s : PoolState T R E),
        NoStop cfg → Reaches cfg (initState n) s → s.isAborted = false) := by
  constructor
  · intro cfg s i item e h hw hh
    by_cases hstop : h e item = POOL_STOP_SIGNAL
    · rw [spec_afterHandler_stop cfg s i item e h hw hh hstop]
      simp [hstop]
    · cases hab : s.isAborted with
      | true =>
          rw [spec_afterHandler_go_aborted cfg s i item e h hw hh hstop hab]
          simp [hstop, hab]
      | false =>
          cases hc : cfg.input[s.cursor]? with
          | some item2 =>
              rw [spec_afterHandler_go_pull cfg s i item item2 e h hw hh
                hstop hab hc]
              simp [hstop, hab]
          | none =>
              rw [spec_afterHandler_go_exhausted cfg s i item e h hw hh
                hstop hab hc]
              simp [hstop, hab]
  · intro cfg n s hns hr
    exact (reach_invNA hns hr).nab

/-- Handler for the C8 witness: returns the stop sentinel. -/
def c8handler : Nat → Nat → HandlerRet := fun _ _ => POOL_STOP_SIGNAL

/-- Input for the first conjunct of the C8 witness. -/
def c8cfg : PoolConfig Nat Nat Nat :=
  ⟨[3], fun _ => Except.error 1, some c8handler⟩

/-- State for the first conjunct of the C8 witness: one worker suspended in
the handler invocation for item 3. -/
def c8state : PoolState Nat Nat Nat :=
  ⟨1, [], [1], [3], false, [WState.afterHandler 3 1], [(0, 0)], [3], 1, 0⟩

/-- Handler for the second conjunct of the C8 witness: never returns the
sentinel. -/
def c8handler2 : Nat → Nat → HandlerRet := fun _ _ => HandlerRet.undef

/-- Input for the second conjunct of the C8 witness. -/
def c8cfg2 : PoolConfig Nat Nat Nat :=
  ⟨[1, 2], fun t => Except.error t, some c8handler2⟩

/-- Witness for C8: the sentinel-returning handler sets the flag; a run
whose handler never returns the sentinel stays unaborted. -/
theorem claim8_abort_iff_sentinel_witness :
    ((stepPool c8cfg c8state 0).isAborted =
      (c8state.isAborted || decide (c8handler 1 3 = POOL_STOP_SIGNAL))) ∧
    (runFuel c8cfg2 30 (initState 1)).isAborted = false :=
  ⟨(claim8_abort_iff_sentinel Nat Nat Nat).1 c8cfg c8state 0 3 1 c8handler
     rfl rfl,
   (claim8_abort_iff_sentinel Nat Nat Nat).2 c8cfg2 1 _
     (by
       intro h hh e t
       have hh2 : c8handler2 = h := Option.some.inj hh
       rw [← hh2]
       simp [c8handler2, POOL_STOP_SIGNAL])
     (runFuel_reaches c8cfg2 30 (initState 1))⟩

/-- C9: in every reachable state the pull log lists the consumed input
indexes in order with no repetition (each item is consumed by exactly one
worker, no double dispatch), and in an aborted state no scheduler step
pulls a new item from the shared cursor. -/
theorem claim9_exactly_once_consumption (T R E : Type) :
    (∀ (cfg : PoolConfig T R E) (n : Nat) (s : PoolState T R E),
        Reaches cfg (initState n) s →
        s.log.map Prod.snd = List.range s.cursor ∧
        (s.log.map Prod.snd).Nodup) ∧
    (∀ (cfg : PoolConfig T R E) (s : PoolState T R E) (i : Nat),
        s.isAborted = true →
        (stepPool cfg s i).cursor = s.cursor ∧
        (stepPool cfg s i).log = s.log) := by
  constructor
  · intro cfg n s hr
    have hInv := reach_inv hr
    refine ⟨hInv.logr, ?_⟩
    rw [hInv.logr]
    exact List.nodup_range s.cursor
  · intro cfg s i hab
    cases hw : s.workers[i]? with
    | none =>
        unfold stepPool
        rw [hw]
        exact ⟨rfl, rfl⟩
    | some w =>
        cases w with
        | done => rw [spec_done cfg s i hw]; exact ⟨rfl, rfl⟩
        | toStart =>
            rw [spec_toStart_aborted cfg s i hw hab]
            exact ⟨rfl, rfl⟩
        | afterNext v =>
            cases v with
            | none => rw [spec_afterNext_none cfg s i hw]; exact ⟨rfl, rfl⟩
            | some item =>
                rw [spec_afterNext_aborted cfg s i item hw hab]
                exact ⟨rfl, rfl⟩
        | afterOp item =>
            cases hop : cfg.op item with
            | ok r =>
                rw [spec_afterOp_ok_aborted cfg s i item r hw hop hab]
                exact ⟨rfl, rfl⟩
            | error e =>
                cases hh : cfg.handler with
                | some h =>
                    rw [spec_afterOp_error_handler cfg s i item e h hw hop hh]
                    exact ⟨rfl, rfl⟩
                | none =>
                    rw [spec_afterOp_error_aborted cfg s i item e hw hop hh
                      hab]
                    exact ⟨rfl, rfl⟩
        | afterHandler item e =>
            cases hh : cfg.handler with
            | some h =>
                by_cases hstop : h e item = POOL_STOP_SIGNAL
                · rw [spec_afterHandler_stop cfg s i item e h hw hh hstop]
                  exact ⟨rfl, rfl⟩
                · rw [spec_afterHandler_go_aborted cfg s i item e h hw hh
                    hstop hab]
                  exact ⟨rfl, rfl⟩
            | none =>
                rw [spec_afterHandler_none_aborted cfg s i item e hw hh hab]
                exact ⟨rfl, rfl⟩

/-- Input for the C9 witness. -/
def c9cfg : PoolConfig Nat Nat Nat :=
  ⟨[7, 8, 9], fun t => Except.ok t, none⟩

/-- Aborted state for the second conjunct of the C9 witness. -/
def c9state : PoolState Nat Nat Nat :=
  ⟨1, [7], [], [], true, [WState.toStart, WState.toStart], [(0, 0)], [7], 0, 0⟩

/-- Witness for C9: a concrete run consumes indexes 0, 1, 2 in order with
no repetition, and a step of an aborted state pulls nothing. -/
theorem claim9_exactly_once_consumption_witness :
    ((runFuel c9cfg 30 (initState 2)).log.map Prod.snd =
        List.range (runFuel c9cfg 30 (initState 2)).cursor ∧
     ((runFuel c9cfg 30 (initState 2)).log.map Prod.snd).Nodup) ∧
    ((stepPool c9cfg c9state 1).cursor = c9state.cursor ∧
     (stepPool c9cfg c9state 1).log = c9state.log) :=
  ⟨(claim9_exactly_once_consumption Nat Nat Nat).1 c9cfg 2 _
     (runFuel_reaches c9cfg 30 (initState 2)),
   (claim9_exactly_once_consumption Nat Nat Nat).2 c9cfg c9state 1 rfl⟩

/-- C10: in every reachable state errors and failedItems correspond
pairwise by position: the entry at index i of errors is exactly the failure
the operation produces on the entry at index i of failedItems. -/
theorem claim10_errors_fail_pairwise (cfg : PoolConfig T R E) (n : Nat)
    (s : PoolState T R E) (hr : Reaches cfg (initState n) s) :
    s.errors.length = s.failedItems.length ∧
    ∀ (i : Nat) (hi : i < s.errors.length) (hi2 : i < s.failedItems.length),
      cfg.op (s.failedItems.get ⟨i, hi2⟩) =
        Except.error (s.errors.get ⟨i, hi⟩) := by
  have hInv := reach_inv hr
  exact ⟨hInv.pair.length_eq, fun i hi hi2 => hInv.pair.get hi hi2⟩

/-- Input for the C10 witness: the operation fails on odd items with an
error computed from the item. -/
def c10cfg : PoolConfig Nat Nat Nat :=
  ⟨[1, 2, 3], fun t =>
      if t % 2 = 1 then Except.error (t * 10) else Except.ok t, none⟩

/-- Witness for C10 at a concrete run with two failures. -/
theorem claim10_errors_fail_pairwise_witness :
    (runFuel c10cfg 30 (initState 1)).errors.length =
        (runFuel c10cfg 30 (initState 1)).failedItems.length ∧
    c10cfg.op ((runFuel c10cfg 30 (initState 1)).failedItems.get
        ⟨0, by decide⟩) =
      Except.error ((runFuel c10cfg 30 (initState 1)).errors.get
        ⟨0, by decide⟩) :=
  ⟨(claim10_errors_fail_pairwise c10cfg 1 _
      (runFuel_reaches c10cfg 30 (initState 1))).1,
   (claim10_errors_fail_pairwise c10cfg 1 _
      (runFuel_reaches c10cfg 30 (initState 1))).2 0 (by decide) (by decide)⟩

/-- The scenario of C5: input with three items, concurrency 1, an operation
that raises on every item, a handler that returns the stop sentinel on the
first failure. -/
def c5cfg : PoolConfig Nat Nat Nat :=
  ⟨[1, 2, 3], fun _ => Except.error 7, some (fun _ _ => POOL_STOP_SIGNAL)⟩

/-- C5: with concurrency 1, input of three items whose operation always
raises, and a handler returning the stop sentinel on the first failure,
every terminal state of every schedule has invoked the operation exactly
once and has stoppedPrematurely = true. -/
theorem claim5_abort_semantics (s : PoolState Nat Nat Nat)
    (hr : Reaches c5cfg (initState 1) s) (ht : Terminal s) :
    s.invoked.length = 1 ∧ s.isAborted = true := by
  have hdet : ∀ a, Relation.ReflTransGen (Step c5cfg) (initState 1) a →
      ∀ b c, Step c5cfg a b → Step c5cfg a c → b = c := by
    intro a ha
    refine step_det_one ?_
    have hl := reaches_workers_length ha
    rw [hl]
    simp [initState]
  have h2 : Reaches c5cfg (initState 1) (runFuel c5cfg 20 (initState 1)) :=
    runFuel_reaches c5cfg 20 (initState 1)
  have ht2 : Terminal (runFuel c5cfg 20 (initState 1)) := by decide
  have heq : s = runFuel c5cfg 20 (initState 1) :=
    reach_unique hdet hr (fun b => terminal_no_step ht)
      h2 (fun b => terminal_no_step ht2)
  rw [heq]
  decide

/-- Witness for C5: the deterministic run of the scenario. -/
theorem claim5_abort_semantics_witness :
    (runFuel c5cfg 20 (initState 1)).invoked.length = 1 ∧
    (runFuel c5cfg 20 (initState 1)).isAborted = true :=
  claim5_abort_semantics _ (runFuel_reaches c5cfg 20 (initState 1))
    (by decide)

/-- Arguments with concurrency 2.5, a positive number that is not an
integer: every other argument is well formed. -/
def c4args : RawArgs := ⟨true, true, true, JSNumber.fin (mkRat 5 2), false, false⟩

/-- Input for the C4 theorems. -/
def c4cfg : PoolConfig Nat Nat Nat :=
  ⟨[1, 2, 3], fun t => Except.ok (t * 2), none⟩

/-- Length of the success list of a completed call, when the call did not
fail. -/
def okResultsLength : Except String (Outcome T R E) → Option Nat
  | Except.error _ => none
  | Except.ok o => some o.results.length

/-- Counterexample to C4 as stated: concurrency 5 / 2 = 2.5 is not a
positive finite integer (its denominator is 2), yet the validation of the
source accepts it, the call does not fail, items are consumed, and all
three items are processed. -/
theorem claim4_validation_counterexample :
    (mkRat 5 2).den = 2 ∧
    _validateInput c4args = none ∧
    okResultsLength (promisePool c4args c4cfg) = some 3 := by
  refine ⟨by decide, by decide, by decide⟩

/-- C4 amended: whenever validation fails the call fails immediately with
the message of the first failing check, before creating any worker or
consuming any item; validation fails exactly when the input is absent, the
operation is not callable, the concurrency is not a positive number (not of
number type, NaN, zero or negative), or a provided handler is not callable;
each of the four checks produces its own descriptive message.  Integrality
of the concurrency is not checked: a positive non-integer such as 2.5
passes validation and the pool runs with the truncated worker count. -/
theorem claim4_validation_amended (T R E : Type) :
    (∀ (a : RawArgs) (cfg : PoolConfig T R E) (msg : String),
        _validateInput a = some msg → promisePool a cfg = Except.error msg) ∧
    (∀ a : RawArgs, _validateInput a = none ↔
        (a.inputPresent = true ∧ a.iteratorFnIsFunction = true ∧
         a.concurrencyIsNumber = true ∧ jsGtZero a.concurrency = true ∧
         (a.errorHandlerPresent = true → a.errorHandlerIsFunction = true))) ∧
    (∀ a : RawArgs, a.inputPresent = false →
        _validateInput a = some ("input is required")) ∧
    (∀ a : RawArgs, a.inputPresent = true → a.iteratorFnIsFunction = false →
        _validateInput a = some ("iteratorFn must be a function")) ∧
    (∀ a : RawArgs, a.inputPresent = true → a.iteratorFnIsFunction = true →
        (a.concurrencyIsNumber && jsGtZero a.concurrency) = false →
        _validateInput a = some ("concurrency must be a positive number")) ∧
    (∀ a : RawArgs, a.inputPresent = true → a.iteratorFnIsFunction = true →
        (a.concurrencyIsNumber && jsGtZero a.concurrency) = true →
        a.errorHandlerPresent = true → a.errorHandlerIsFunction = false →
        _validateInput a = some ("errorHandler must be a function")) := by
  refine ⟨?_, ?_, ?_, ?_, ?_, ?_⟩
  · intro a cfg msg hv
    unfold promisePool
    rw [hv]
  · intro a
    obtain ⟨ip, fn, cn, q, ep, ef⟩ := a
    cases hgz : jsGtZero q <;> cases ip <;> cases fn <;> cases cn <;>
      cases ep <;> cases ef <;> simp [_validateInput, hgz]
  · intro a h1
    simp [_validateInput, h1]
  · intro a h1 h2
    simp [_validateInput, h1, h2]
  · intro a h1 h2 h3
    simp [_validateInput, h1, h2, h3]
  · intro a h1 h2 h3 h4 h5
    simp [_validateInput, h1, h2, h3, h4, h5]

/-- Arguments with an absent input, for the C4 witness. -/
def c4badargs : RawArgs := ⟨false, true, true, JSNumber.fin 2, false, false⟩

/-- Witness for the amended C4 at a call with an absent input. -/
theorem claim4_validation_amended_witness :
    promisePool c4badargs c4cfg = Except.error ("input is required") ∧
    _validateInput c4badargs = some ("input is required") :=
  ⟨(claim4_validation_amended Nat Nat Nat).1 c4badargs c4cfg
     ("input is required") rfl,
   (claim4_validation_amended Nat Nat Nat).2.2.1 c4badargs rfl⟩

end PromisePool

